import Mathlib

/-!
# AVOPP academic task-tracking API — verification of the scoring and ranking logic

Shallow embedding of the AVOPP server (`src/index.ts`).  Instants are modelled as
milliseconds since the Unix epoch (`Int`, the value of JavaScript `Date.getTime()`);
scores are modelled as exact rationals (`ℚ`); the SQLite TEXT columns `type`,
`status` and `priority` are modelled as `String`, matching the switch/default
structure of the scoring functions.

`date-fns`'s `differenceInHours` truncates toward zero (`Math.trunc`), which is
`Int.tdiv`.  `startOfDay` / `startOfWeek` floor the timestamp in the server's local
timezone, modelled by a fixed offset `off` in milliseconds added to UTC (floor
division is `Int.ediv`, the `/` of `ℤ`).
-/

/-- One row of the `Activity` table (`prisma/migrations`): TEXT enumerations kept as
strings, nullable columns as `Option`, DATETIME columns as epoch milliseconds. -/
structure Activity where
  id : String
  subjectId : String
  type : String
  name : String
  description : Option String := none
  startAt : Option Int := none
  dueAt : Option Int := none
  status : String := "pending"
  priority : String := "auto"
  manualPriority : Option Int := none
  completedAt : Option Int := none
  completedBy : Option String := none
  createdAt : Int := 0
  updatedAt : Int := 0
  deriving Repr, DecidableEq

/-- The traffic-light classification returned by `computeColorByDue`. -/
inductive Color where
  | red
  | yellow
  | green
  | none
  deriving Repr, DecidableEq

/-- `computeColorByDue(hoursRemaining)` from `src/index.ts`. -/
def computeColorByDue (hoursRemaining : Option Int) : Color :=
  match hoursRemaining with
  | Option.none => Color.none
  | some h =>
    if h ≤ 48 then Color.red
    else if 72 ≤ h ∧ h ≤ 120 then Color.yellow
    else if h > 120 then Color.green
    else Color.none

/-- `computeTypeBase(type)` from `src/index.ts`: the switch over the activity type,
with `clase` sharing the `default` arm. -/
def computeTypeBase (type : String) : Int :=
  if type = "examen" then 100
  else if type = "entrega" ∨ type = "tarea" then 70
  else if type = "lectura" then 40
  else 10

/-- `computeStateAdjust(status)` from `src/index.ts`: the switch over the activity
status, `default` arm returning 0. -/
def computeStateAdjust (status : String) : Int :=
  if status = "pending" then 20
  else if status = "in_progress" then 10
  else if status = "completed" then -100
  else 0

/-- `differenceInHours(dateLeft, dateRight)` of date-fns: whole hours, truncated
toward zero. -/
def differenceInHours (dateLeft dateRight : Int) : Int :=
  Int.tdiv (dateLeft - dateRight) 3600000

/-- The `hoursRemaining` local of `rankActivity`: `null` without a due date,
otherwise `Math.max(1, differenceInHours(dueAt, nowUtc))`. -/
def hoursRemainingOf (a : Activity) (nowUtc : Int) : Option Int :=
  match a.dueAt with
  | Option.none => Option.none
  | some due => some (max 1 (differenceInHours due nowUtc))

/-- The `urgency` local of `rankActivity`: `hoursRemaining ? 200 / hoursRemaining : 0`
(a JavaScript truthiness test, so the value 0 would also select the 0 branch). -/
def urgencyOf (a : Activity) (nowUtc : Int) : ℚ :=
  match hoursRemainingOf a nowUtc with
  | Option.none => 0
  | some h => if h = 0 then 0 else 200 / (h : ℚ)

/-- The `autoScore` local of `rankActivity`: type base + status adjustment + urgency. -/
def autoScoreOf (a : Activity) (nowUtc : Int) : ℚ :=
  (computeTypeBase a.type : ℚ) + (computeStateAdjust a.status : ℚ) + urgencyOf a nowUtc

/-- The record produced by `rankActivity`: the activity plus score, color and
priority source. -/
structure RankedActivity where
  activity : Activity
  score : ℚ
  color : Color
  prioritySource : String
  deriving Repr, DecidableEq

/-- `rankActivity(a, nowUtc)` from `src/index.ts`: the score is the manual priority
verbatim when `a.priority === 'manual' && a.manualPriority != null`, otherwise the
auto score; the color is driven by `hoursRemaining` alone. -/
def rankActivity (a : Activity) (nowUtc : Int) : RankedActivity :=
  if a.priority = "manual" then
    match a.manualPriority with
    | some m =>
      { activity := a, score := (m : ℚ),
        color := computeColorByDue (hoursRemainingOf a nowUtc), prioritySource := "manual" }
    | Option.none =>
      { activity := a, score := autoScoreOf a nowUtc,
        color := computeColorByDue (hoursRemainingOf a nowUtc), prioritySource := "auto" }
  else
    { activity := a, score := autoScoreOf a nowUtc,
      color := computeColorByDue (hoursRemainingOf a nowUtc), prioritySource := "auto" }

lemma rankActivity_of_not_manual (a : Activity) (nowUtc : Int)
    (h : ¬ (a.priority = "manual" ∧ a.manualPriority ≠ Option.none)) :
    rankActivity a nowUtc =
      { activity := a, score := autoScoreOf a nowUtc,
        color := computeColorByDue (hoursRemainingOf a nowUtc), prioritySource := "auto" } := by
  unfold rankActivity
  by_cases hp : a.priority = "manual"
  · cases hm : a.manualPriority with
    | none => simp [hp, hm]
    | some m => exact absurd ⟨hp, by simp [hm]⟩ h
  · simp [hp]

lemma rankActivity_of_manual (a : Activity) (nowUtc : Int) (m : Int)
    (hp : a.priority = "manual") (hm : a.manualPriority = some m) :
    rankActivity a nowUtc =
      { activity := a, score := (m : ℚ),
        color := computeColorByDue (hoursRemainingOf a nowUtc), prioritySource := "manual" } := by
  unfold rankActivity
  simp [hp, hm]

/-- A sample activity with no honored manual override (auto priority, exam, no due
date), used as a concrete instance for witnesses. -/
def sampleAutoExam : Activity :=
  { id := "a1", subjectId := "s1", type := "examen", name := "parcial" }

/-- Claim C1: for an activity whose priority is not an honored manual override, the
score is `typeBase(type) + statusAdjust(status) + urgency`, where the type base
table is exam=100, delivery=70, homework=70, reading=40, class=10, the status
adjustment is pending=+20, in_progress=+10, completed=−100 and 0 for any other
status, and the urgency is the step-4 urgency term. -/
theorem auto_score_is_sum_of_terms (a : Activity) (nowUtc : Int)
    (h : ¬ (a.priority = "manual" ∧ a.manualPriority ≠ Option.none)) :
    (rankActivity a nowUtc).score
        = (computeTypeBase a.type : ℚ) + (computeStateAdjust a.status : ℚ) + urgencyOf a nowUtc
      ∧ computeTypeBase "examen" = 100 ∧ computeTypeBase "entrega" = 70
      ∧ computeTypeBase "tarea" = 70 ∧ computeTypeBase "lectura" = 40
      ∧ computeTypeBase "clase" = 10
      ∧ computeStateAdjust "pending" = 20 ∧ computeStateAdjust "in_progress" = 10
      ∧ computeStateAdjust "completed" = -100
      ∧ (∀ s : String, s ≠ "pending" → s ≠ "in_progress" → s ≠ "completed" →
          computeStateAdjust s = 0) := by
  refine ⟨?_, by decide, by decide, by decide, by decide, by decide, by decide, by decide,
    by decide, ?_⟩
  · rw [rankActivity_of_not_manual a nowUtc h]
    rfl
  · intro s h1 h2 h3
    simp [computeStateAdjust, h1, h2, h3]

/-- Witness for C1: the auto-priority sample exam scores 100 + 20 + 0 = 120. -/
theorem auto_score_is_sum_of_terms_witness :
    ¬ (sampleAutoExam.priority = "manual" ∧ sampleAutoExam.manualPriority ≠ Option.none)
      ∧ (rankActivity sampleAutoExam 0).score = 120 := by
  refine ⟨by decide, ?_⟩
  have h := (auto_score_is_sum_of_terms sampleAutoExam 0 (by decide)).1
  rw [h]
  norm_num [sampleAutoExam, computeTypeBase, computeStateAdjust, urgencyOf, hoursRemainingOf]

/-- Claim C2: with priority mode manual and a non-null manualPriority the engine
returns that value verbatim with source `manual`, independently of type, status and
dueAt; in every other case it returns the auto score with source `auto`. -/
theorem manual_override_verbatim_else_auto (a : Activity) (nowUtc : Int) :
    (∀ m : Int, a.priority = "manual" → a.manualPriority = some m →
        (rankActivity a nowUtc).score = (m : ℚ)
        ∧ (rankActivity a nowUtc).prioritySource = "manual"
        ∧ ∀ (t s : String) (d : Option Int),
            (rankActivity { a with type := t, status := s, dueAt := d } nowUtc).score = (m : ℚ))
      ∧ (¬ (a.priority = "manual" ∧ a.manualPriority ≠ Option.none) →
          (rankActivity a nowUtc).score = autoScoreOf a nowUtc
          ∧ (rankActivity a nowUtc).prioritySource = "auto") := by
  constructor
  · intro m hp hm
    rw [rankActivity_of_manual a nowUtc m hp hm]
    refine ⟨rfl, rfl, ?_⟩
    intro t s d
    rw [rankActivity_of_manual { a with type := t, status := s, dueAt := d } nowUtc m hp hm]
  · intro h
    rw [rankActivity_of_not_manual a nowUtc h]
    exact ⟨rfl, rfl⟩

/-- A sample activity with an honored manual override of 55. -/
def sampleManual55 : Activity :=
  { id := "a2", subjectId := "s1", type := "tarea", name := "taller",
    priority := "manual", manualPriority := some 55, dueAt := some 7200000 }

/-- Witness for C2: the manual-55 sample scores 55 with source `manual`, and still
scores 55 after changing its type, status and due date. -/
theorem manual_override_verbatim_else_auto_witness :
    sampleManual55.priority = "manual" ∧ sampleManual55.manualPriority = some 55
      ∧ (rankActivity sampleManual55 0).score = 55
      ∧ (rankActivity sampleManual55 0).prioritySource = "manual"
      ∧ (rankActivity { sampleManual55 with
            type := "examen", status := "completed", dueAt := Option.none } 0).score = 55 := by
  have h := (manual_override_verbatim_else_auto sampleManual55 0).1 55 rfl rfl
  exact ⟨rfl, rfl, h.1, h.2.1, h.2.2 "examen" "completed" Option.none⟩

/-- Claim C3: the color depends only on remaining-hours: `none` without a due date,
red when remaining-hours ≤ 48, yellow when 72 ≤ remaining-hours ≤ 120, green when
remaining-hours > 120, and `none` strictly between 48 and 72. -/
theorem color_determined_by_remaining_hours (a : Activity) (nowUtc : Int) :
    (rankActivity a nowUtc).color = computeColorByDue (hoursRemainingOf a nowUtc)
      ∧ (hoursRemainingOf a nowUtc = Option.none → (rankActivity a nowUtc).color = Color.none)
      ∧ ∀ h : Int, hoursRemainingOf a nowUtc = some h →
          ((h ≤ 48 → (rankActivity a nowUtc).color = Color.red)
            ∧ (72 ≤ h → h ≤ 120 → (rankActivity a nowUtc).color = Color.yellow)
            ∧ (120 < h → (rankActivity a nowUtc).color = Color.green)
            ∧ (48 < h → h < 72 → (rankActivity a nowUtc).color = Color.none)) := by
  have hcol : (rankActivity a nowUtc).color = computeColorByDue (hoursRemainingOf a nowUtc) := by
    unfold rankActivity
    by_cases hp : a.priority = "manual"
    · cases hm : a.manualPriority with
      | none => simp [hp, hm]
      | some m => simp [hp, hm]
    · simp [hp]
  refine ⟨hcol, ?_, ?_⟩
  · intro hnone
    rw [hcol, hnone]
    rfl
  · intro h hsome
    rw [hcol, hsome]
    refine ⟨?_, ?_, ?_, ?_⟩
    · intro h48
      simp [computeColorByDue, h48]
    · intro h72 h120
      have : ¬ h ≤ 48 := by omega
      simp [computeColorByDue, this, h72, h120]
    · intro h120
      have h1 : ¬ h ≤ 48 := by omega
      have h2 : ¬ (72 ≤ h ∧ h ≤ 120) := by omega
      simp [computeColorByDue, h1, h2, h120]
    · intro hgt hlt
      have h1 : ¬ h ≤ 48 := by omega
      have h2 : ¬ (72 ≤ h ∧ h ≤ 120) := by omega
      have h3 : ¬ h > 120 := by omega
      simp [computeColorByDue, h1, h2, h3]

/-- A sample auto-priority homework due 24 hours after instant 0. -/
def sampleDue24h : Activity :=
  { id := "a3", subjectId := "s1", type := "tarea", name := "lab", dueAt := some 86400000 }

/-- Witness for C3: the sample due in 24 hours has remaining-hours 24 and color red. -/
theorem color_determined_by_remaining_hours_witness :
    hoursRemainingOf sampleDue24h 0 = some 24
      ∧ (rankActivity sampleDue24h 0).color = Color.red := by
  refine ⟨by decide, ?_⟩
  exact (((color_determined_by_remaining_hours sampleDue24h 0).2.2 24 (by decide)).1 (by decide))

/-- Claim C4: with a due date, remaining-hours is `max(1, whole hours between now and
dueAt)` — an exactly-1-hour difference and an overdue difference both give 1 — so
the urgency term `200 / remaining-hours` never divides by zero and is positive;
without a due date the urgency term is 0. -/
theorem remaining_hours_floored_at_one (a : Activity) (nowUtc : Int) :
    (∀ due : Int, a.dueAt = some due →
        hoursRemainingOf a nowUtc = some (max 1 (differenceInHours due nowUtc))
        ∧ (differenceInHours due nowUtc ≤ 0 → hoursRemainingOf a nowUtc = some 1)
        ∧ (due - nowUtc = 3600000 → hoursRemainingOf a nowUtc = some 1)
        ∧ ∀ h : Int, hoursRemainingOf a nowUtc = some h →
            1 ≤ h ∧ h ≠ 0 ∧ urgencyOf a nowUtc = 200 / (h : ℚ) ∧ 0 < urgencyOf a nowUtc)
      ∧ (a.dueAt = Option.none → urgencyOf a nowUtc = 0) := by
  constructor
  · intro due hdue
    have hval : hoursRemainingOf a nowUtc = some (max 1 (differenceInHours due nowUtc)) := by
      simp [hoursRemainingOf, hdue]
    refine ⟨hval, ?_, ?_, ?_⟩
    · intro hle
      rw [hval]
      congr 1
      omega
    · intro hexact
      rw [hval]
      congr 1
      have : differenceInHours due nowUtc = 1 := by
        unfold differenceInHours
        rw [hexact]
        decide
      rw [this]
      omega
    · intro h hsome
      rw [hval] at hsome
      have hh : h = max 1 (differenceInHours due nowUtc) := by
        exact (Option.some_injective _ hsome).symm
      have h1 : 1 ≤ h := by omega
      have hne : h ≠ 0 := by omega
      have hurg : urgencyOf a nowUtc = 200 / (h : ℚ) := by
        unfold urgencyOf
        rw [hval, ← hh]
        simp [hne]
      refine ⟨h1, hne, hurg, ?_⟩
      rw [hurg]
      have hpos : (0 : ℚ) < (h : ℚ) := by exact_mod_cast (by omega : (0 : ℤ) < h)
      positivity
  · intro hnone
    simp [urgencyOf, hoursRemainingOf, hnone]

/-- An auto-priority reading that is already overdue at instant 10⁷ ms. -/
def sampleOverdue : Activity :=
  { id := "a4", subjectId := "s1", type := "lectura", name := "cap3", dueAt := some 0 }

/-- Witness for C4: the overdue sample floors to remaining-hours 1 and gets urgency
200, and an activity with no due date gets urgency 0. -/
theorem remaining_hours_floored_at_one_witness :
    sampleOverdue.dueAt = some 0
      ∧ hoursRemainingOf sampleOverdue 10000000 = some 1
      ∧ urgencyOf sampleOverdue 10000000 = 200
      ∧ urgencyOf sampleAutoExam 0 = 0 := by
  have h := (remaining_hours_floored_at_one sampleOverdue 10000000).1 0 rfl
  have h1 : hoursRemainingOf sampleOverdue 10000000 = some 1 := h.2.1 (by decide)
  have h200 := (h.2.2.2 1 h1).2.2.1
  refine ⟨rfl, h1, ?_, ?_⟩
  · rw [h200]
    norm_num
  · exact (remaining_hours_floored_at_one sampleAutoExam 0).2 rfl

lemma urgencyOf_congr_due (a b : Activity) (nowUtc : Int) (hdue : a.dueAt = b.dueAt) :
    urgencyOf a nowUtc = urgencyOf b nowUtc := by
  unfold urgencyOf hoursRemainingOf
  rw [hdue]

lemma autoScoreOf_eval (a : Activity) (nowUtc : Int) (tb adj : Int) (u : ℚ)
    (h1 : computeTypeBase a.type = tb) (h2 : computeStateAdjust a.status = adj)
    (h3 : urgencyOf a nowUtc = u) :
    autoScoreOf a nowUtc = (tb : ℚ) + (adj : ℚ) + u := by
  unfold autoScoreOf
  rw [h1, h2, h3]

/-- An auto-priority exam, pending, due one hour after instant 0. -/
def examPendingOneHour : Activity :=
  { id := "e1", subjectId := "s1", type := "examen", name := "parcial",
    dueAt := some 3600000 }

/-- The same exam with status completed. -/
def examCompletedOneHour : Activity :=
  { examPendingOneHour with id := "e2", status := "completed" }

lemma urgencyOf_examPendingOneHour : urgencyOf examPendingOneHour 0 = 200 := by
  have hr : hoursRemainingOf examPendingOneHour 0 = some 1 := by decide
  unfold urgencyOf
  rw [hr]
  norm_num

/-- Claim C7: among auto-scored activities of the same type and due date, a completed
one scores strictly below a pending or in-progress one; concretely an exam due in
one hour scores 320 pending and 200 completed. -/
theorem completed_scores_strictly_below (a b : Activity) (nowUtc : Int)
    (ha : ¬ (a.priority = "manual" ∧ a.manualPriority ≠ Option.none))
    (hb : ¬ (b.priority = "manual" ∧ b.manualPriority ≠ Option.none))
    (htype : a.type = b.type) (hdue : a.dueAt = b.dueAt)
    (hca : a.status = "completed") (hsb : b.status = "pending" ∨ b.status = "in_progress") :
    (rankActivity a nowUtc).score < (rankActivity b nowUtc).score
      ∧ (rankActivity examPendingOneHour 0).score = 320
      ∧ (rankActivity examCompletedOneHour 0).score = 200 := by
  refine ⟨?_, ?_, ?_⟩
  · rw [rankActivity_of_not_manual a nowUtc ha, rankActivity_of_not_manual b nowUtc hb]
    show autoScoreOf a nowUtc < autoScoreOf b nowUtc
    unfold autoScoreOf
    rw [htype, urgencyOf_congr_due a b nowUtc hdue]
    have hadJa : computeStateAdjust a.status = -100 := by rw [hca]; decide
    have hadJb : computeStateAdjust b.status = 20 ∨ computeStateAdjust b.status = 10 := by
      rcases hsb with h | h
      · left; rw [h]; decide
      · right; rw [h]; decide
    rw [hadJa]
    rcases hadJb with h | h <;> rw [h] <;> push_cast <;> linarith
  · rw [rankActivity_of_not_manual examPendingOneHour 0 (by decide)]
    show autoScoreOf examPendingOneHour 0 = 320
    rw [autoScoreOf_eval examPendingOneHour 0 100 20 200 (by decide) (by decide)
      urgencyOf_examPendingOneHour]
    norm_num
  · rw [rankActivity_of_not_manual examCompletedOneHour 0 (by decide)]
    show autoScoreOf examCompletedOneHour 0 = 200
    have hu : urgencyOf examCompletedOneHour 0 = 200 := by
      have hr : hoursRemainingOf examCompletedOneHour 0 = some 1 := by decide
      unfold urgencyOf
      rw [hr]
      norm_num
    rw [autoScoreOf_eval examCompletedOneHour 0 100 (-100) 200 (by decide) (by decide) hu]
    norm_num

/-- Witness for C7: at instant 0 the concrete completed exam scores 200, strictly
below the 320 of the pending exam with the same type and due date. -/
theorem completed_scores_strictly_below_witness :
    (rankActivity examCompletedOneHour 0).score < (rankActivity examPendingOneHour 0).score := by
  exact (completed_scores_strictly_below examCompletedOneHour examPendingOneHour 0
    (by decide) (by decide) rfl rfl rfl (Or.inl rfl)).1

/-- Claim C10: a manual-priority activity with manualPriority exactly 0 takes the
manual branch (the guard is `!= null`, not truthiness): score 0, source manual. -/
theorem manual_zero_is_honored (a : Activity) (nowUtc : Int)
    (hp : a.priority = "manual") (hm : a.manualPriority = some 0) :
    (rankActivity a nowUtc).score = 0 ∧ (rankActivity a nowUtc).prioritySource = "manual" := by
  rw [rankActivity_of_manual a nowUtc 0 hp hm]
  exact ⟨by norm_num, rfl⟩

/-- A manual-priority activity whose stored manual priority is 0. -/
def sampleManualZero : Activity :=
  { id := "a5", subjectId := "s1", type := "entrega", name := "informe",
    priority := "manual", manualPriority := some 0, dueAt := some 3600000 }

/-- Witness for C10: the manual-zero sample scores 0 with source manual (not its auto
score, which would be 290). -/
theorem manual_zero_is_honored_witness :
    sampleManualZero.priority = "manual" ∧ sampleManualZero.manualPriority = some 0
      ∧ (rankActivity sampleManualZero 0).score = 0
      ∧ (rankActivity sampleManualZero 0).prioritySource = "manual" := by
  have h := manual_zero_is_honored sampleManualZero 0 rfl rfl
  exact ⟨rfl, rfl, h.1, h.2⟩

/-- `POST /api/activities/:id/toggle-completed` from `src/index.ts`, as the pure
state transformation it applies to the stored row: status flips to pending when
currently completed and to completed otherwise; completing stamps `completedAt` with
the current instant and `completedBy` with `'student'`, un-completing clears both.
`updatedAt` models Prisma's auto-refreshed timestamp. -/
def toggleCompleted (a : Activity) (nowUtc : Int) : Activity :=
  if a.status = "completed" then
    { a with
        status := "pending"
        completedAt := Option.none
        completedBy := Option.none
        updatedAt := nowUtc }
  else
    { a with
        status := "completed"
        completedAt := some nowUtc
        completedBy := some "student"
        updatedAt := nowUtc }

/-- An in-progress activity with no completion fields set. -/
def sampleInProgress : Activity :=
  { id := "a6", subjectId := "s1", type := "tarea", name := "avance",
    status := "in_progress" }

/-- Counterexample to C8 as stated: toggling the in-progress sample twice yields
status pending, not the original in_progress (the first toggle sends any non-completed
status to completed, the second back to pending). -/
theorem toggle_twice_not_involutive_on_in_progress :
    (toggleCompleted (toggleCompleted sampleInProgress 5) 9).status
      ≠ sampleInProgress.status := by
  decide

/-- Claim C8 (amended): for an activity that is pending with both completion fields
null, or completed with both completion fields non-null, toggling twice restores the
original status and the null/non-null shape of completedAt and completedBy; a single
toggle flips the status between completed and pending, setting both completion
fields on completing and clearing both on un-completing. -/
theorem toggle_twice_restores_shape (a : Activity) (t1 t2 : Int)
    (h : (a.status = "pending" ∧ a.completedAt = Option.none ∧ a.completedBy = Option.none)
       ∨ (a.status = "completed" ∧ a.completedAt ≠ Option.none ∧ a.completedBy ≠ Option.none)) :
    (toggleCompleted (toggleCompleted a t1) t2).status = a.status
      ∧ ((toggleCompleted (toggleCompleted a t1) t2).completedAt = Option.none
          ↔ a.completedAt = Option.none)
      ∧ ((toggleCompleted (toggleCompleted a t1) t2).completedBy = Option.none
          ↔ a.completedBy = Option.none)
      ∧ (a.status = "completed" →
          (toggleCompleted a t1).status = "pending"
          ∧ (toggleCompleted a t1).completedAt = Option.none
          ∧ (toggleCompleted a t1).completedBy = Option.none)
      ∧ (a.status ≠ "completed" →
          (toggleCompleted a t1).status = "completed"
          ∧ (toggleCompleted a t1).completedAt = some t1
          ∧ (toggleCompleted a t1).completedBy = some "student") := by
  rcases h with ⟨hs, hAt, hBy⟩ | ⟨hs, hAt, hBy⟩
  · have hne : a.status ≠ "completed" := by rw [hs]; decide
    have h1 : toggleCompleted a t1
        = { a with
              status := "completed"
              completedAt := some t1
              completedBy := some "student"
              updatedAt := t1 } := by
      unfold toggleCompleted
      simp [hne]
    have h2 : toggleCompleted (toggleCompleted a t1) t2
        = { a with
              status := "pending"
              completedAt := Option.none
              completedBy := Option.none
              updatedAt := t2 } := by
      rw [h1]
      unfold toggleCompleted
      simp
    rw [h2, h1, hs, hAt, hBy]
    simp
  · have h1 : toggleCompleted a t1
        = { a with
              status := "pending"
              completedAt := Option.none
              completedBy := Option.none
              updatedAt := t1 } := by
      unfold toggleCompleted
      simp [hs]
    have h2 : toggleCompleted (toggleCompleted a t1) t2
        = { a with
              status := "completed"
              completedAt := some t2
              completedBy := some "student"
              updatedAt := t2 } := by
      rw [h1]
      unfold toggleCompleted
      simp
    rw [h2, h1, hs]
    simp [hAt, hBy]

/-- A completed activity whose completion fields are both set. -/
def sampleCompletedStamped : Activity :=
  { id := "a7", subjectId := "s1", type := "entrega", name := "final",
    status := "completed", completedAt := some 1000, completedBy := some "student" }

/-- Witness for amended C8: toggling the stamped completed sample twice restores
status completed and non-null completion fields. -/
theorem toggle_twice_restores_shape_witness :
    (sampleCompletedStamped.status = "completed"
        ∧ sampleCompletedStamped.completedAt ≠ Option.none
        ∧ sampleCompletedStamped.completedBy ≠ Option.none)
      ∧ (toggleCompleted (toggleCompleted sampleCompletedStamped 5) 9).status
          = sampleCompletedStamped.status := by
  refine ⟨⟨rfl, by decide, by decide⟩, ?_⟩
  exact (toggle_twice_restores_shape sampleCompletedStamped 5 9
    (Or.inr ⟨rfl, by decide, by decide⟩)).1

/-- The subject filter of `GET /api/activities/ranking`: `if (subjectId)
where.subjectId = subjectId` — a JavaScript truthiness test, so an absent or
empty-string parameter adds no filter. -/
def matchesSubject (subjectId : Option String) (a : Activity) : Bool :=
  match subjectId with
  | Option.none => true
  | some s => if s = "" then true else a.subjectId == s

/-- The fetch of the ranking endpoint: `where = { NOT: { type: 'clase' } }` plus the
optional subject filter. -/
def rankingCandidates (store : List Activity) (subjectId : Option String) : List Activity :=
  store.filter (fun a => !(a.type == "clase") && matchesSubject subjectId a)

/-- `a.dueAt?.getTime() ?? 0` in the ranking sort comparator. -/
def rankedDueKey (r : RankedActivity) : Int :=
  r.activity.dueAt.getD 0

/-- JavaScript `x || y` on numbers: `y` when `x` is 0, otherwise `x`. -/
def jsOr (x y : ℚ) : ℚ := if x = 0 then y else x

/-- The ranking sort comparator: `(b.score - a.score) ||
((a.dueAt?.getTime() ?? 0) - (b.dueAt?.getTime() ?? 0)) ||
(computeTypeBase(b.type) - computeTypeBase(a.type))`. -/
def rankCompare (a b : RankedActivity) : ℚ :=
  jsOr (b.score - a.score)
    (jsOr ((rankedDueKey a - rankedDueKey b : Int) : ℚ)
      ((computeTypeBase b.activity.type - computeTypeBase a.activity.type : Int) : ℚ))

/-- `a` may come no later than `b` under the comparator: `rankCompare a b ≤ 0`. -/
def rankLe (a b : RankedActivity) : Bool :=
  decide (rankCompare a b ≤ 0)

/-- `GET /api/activities/ranking`: fetch the non-class candidates, score each against
the one shared instant, and sort with the comparator. -/
def rankingEndpoint (store : List Activity) (subjectId : Option String) (nowUtc : Int) :
    List RankedActivity :=
  ((rankingCandidates store subjectId).map (fun a => rankActivity a nowUtc)).mergeSort rankLe

/-- The ordering the spec describes for the ranking output: higher score first; on
equal scores earlier due key first (missing due date keyed as epoch 0); on equal due
keys higher type base first. -/
def rankedBefore (a b : RankedActivity) : Prop :=
  b.score < a.score
    ∨ (a.score = b.score
        ∧ (rankedDueKey a < rankedDueKey b
            ∨ (rankedDueKey a = rankedDueKey b
                ∧ computeTypeBase b.activity.type ≤ computeTypeBase a.activity.type)))

lemma rankCompare_le_zero (a b : RankedActivity) :
    rankCompare a b ≤ 0 ↔ rankedBefore a b := by
  unfold rankCompare jsOr rankedBefore
  by_cases h1 : b.score - a.score = 0
  · have hs : a.score = b.score := by linarith
    rw [if_pos h1]
    by_cases h2 : ((rankedDueKey a - rankedDueKey b : Int) : ℚ) = 0
    · have hd : rankedDueKey a = rankedDueKey b := by
        have : (rankedDueKey a - rankedDueKey b : Int) = 0 := by exact_mod_cast h2
        omega
      rw [if_pos h2]
      constructor
      · intro h3
        have h3' : computeTypeBase b.activity.type ≤ computeTypeBase a.activity.type := by
          have : ((computeTypeBase b.activity.type : ℚ))
              ≤ ((computeTypeBase a.activity.type : ℚ)) := by
            push_cast at h3
            linarith
          exact_mod_cast this
        exact Or.inr ⟨hs, Or.inr ⟨hd, h3'⟩⟩
      · rintro (h | ⟨-, (h | ⟨-, h⟩)⟩)
        · push_cast
          linarith
        · exfalso
          omega
        · push_cast
          have : ((computeTypeBase b.activity.type : ℚ))
              ≤ ((computeTypeBase a.activity.type : ℚ)) := by exact_mod_cast h
          linarith
    · have hd : rankedDueKey a ≠ rankedDueKey b := by
        intro hh
        apply h2
        rw [hh]
        push_cast
        ring
      rw [if_neg h2]
      constructor
      · intro h3
        have h3' : rankedDueKey a ≤ rankedDueKey b := by
          have : ((rankedDueKey a : ℚ)) ≤ ((rankedDueKey b : ℚ)) := by
            push_cast at h3
            linarith
          exact_mod_cast this
        exact Or.inr ⟨hs, Or.inl (lt_of_le_of_ne h3' hd)⟩
      · rintro (h | ⟨-, (h | ⟨hh, -⟩)⟩)
        · push_cast
          linarith
        · push_cast
          have : ((rankedDueKey a : ℚ)) ≤ ((rankedDueKey b : ℚ)) := by
            exact_mod_cast le_of_lt h
          have hne : ((rankedDueKey a : ℚ)) ≠ ((rankedDueKey b : ℚ)) := by
            exact_mod_cast ne_of_lt h
          linarith [lt_of_le_of_ne this hne]
        · exact absurd hh hd
  · rw [if_neg h1]
    constructor
    · intro h3
      have hne : b.score ≠ a.score := fun hh => h1 (by rw [hh]; ring)
      exact Or.inl (lt_of_le_of_ne (by linarith) hne)
    · rintro (h | ⟨hs, -⟩)
      · linarith
      · exact absurd (by rw [hs]; ring) h1

lemma rankLe_iff (a b : RankedActivity) : rankLe a b = true ↔ rankedBefore a b := by
  simp [rankLe, rankCompare_le_zero]

lemma rankLe_total (a b : RankedActivity) : (rankLe a b || rankLe b a) = true := by
  rw [Bool.or_eq_true, rankLe_iff, rankLe_iff]
  rcases lt_trichotomy b.score a.score with h | h | h
  · exact Or.inl (Or.inl h)
  · rcases lt_trichotomy (rankedDueKey a) (rankedDueKey b) with hd | hd | hd
    · exact Or.inl (Or.inr ⟨h.symm, Or.inl hd⟩)
    · rcases le_total (computeTypeBase b.activity.type) (computeTypeBase a.activity.type)
        with ht | ht
      · exact Or.inl (Or.inr ⟨h.symm, Or.inr ⟨hd, ht⟩⟩)
      · exact Or.inr (Or.inr ⟨h, Or.inr ⟨hd.symm, ht⟩⟩)
    · exact Or.inr (Or.inr ⟨h, Or.inl hd⟩)
  · exact Or.inr (Or.inl h)

lemma rankedBefore_trans (a b c : RankedActivity) :
    rankedBefore a b → rankedBefore b c → rankedBefore a c := by
  unfold rankedBefore
  rintro (h1 | ⟨hs1, h1⟩) (h2 | ⟨hs2, h2⟩)
  · exact Or.inl (by linarith)
  · exact Or.inl (by linarith)
  · exact Or.inl (by linarith)
  · refine Or.inr ⟨hs1.trans hs2, ?_⟩
    rcases h1 with hd1 | ⟨hd1, ht1⟩ <;> rcases h2 with hd2 | ⟨hd2, ht2⟩
    · exact Or.inl (by omega)
    · exact Or.inl (by omega)
    · exact Or.inl (by omega)
    · exact Or.inr ⟨hd1.trans hd2, le_trans ht2 ht1⟩

lemma rankLe_trans (a b c : RankedActivity) :
    rankLe a b = true → rankLe b c = true → rankLe a c = true := by
  rw [rankLe_iff, rankLe_iff, rankLe_iff]
  exact rankedBefore_trans a b c

lemma rankActivity_activity (a : Activity) (nowUtc : Int) :
    (rankActivity a nowUtc).activity = a := by
  unfold rankActivity
  by_cases hp : a.priority = "manual"
  · cases hm : a.manualPriority with
    | none => simp [hp, hm]
    | some m => simp [hp, hm]
  · simp [hp]

/-- Claim C5: the ranking endpoint returns exactly the scored candidates (a
permutation of them) arranged so that each element beats the next by the chain:
higher score first, then earlier due key (missing dueAt keyed as epoch 0, hence
first among ties), then higher type base. -/
theorem ranking_sorted_by_score_due_base (store : List Activity)
    (subjectId : Option String) (nowUtc : Int) :
    (rankingEndpoint store subjectId nowUtc).Perm
        ((rankingCandidates store subjectId).map (fun a => rankActivity a nowUtc))
      ∧ (rankingEndpoint store subjectId nowUtc).Pairwise rankedBefore := by
  constructor
  · exact List.mergeSort_perm _ rankLe
  · have h := List.sorted_mergeSort
      (fun x y z hxy hyz => rankLe_trans x y z hxy hyz)
      (fun x y => rankLe_total x y)
      ((rankingCandidates store subjectId).map (fun a => rankActivity a nowUtc))
    exact h.imp (fun hab => (rankLe_iff _ _).mp hab)

/-- Claim C6: the ranking endpoint output never contains a class-type activity, and
contains exactly the rankings of the stored non-class activities that pass the
subject filter. -/
theorem ranking_excludes_class (store : List Activity) (subjectId : Option String)
    (nowUtc : Int) :
    (∀ r ∈ rankingEndpoint store subjectId nowUtc, r.activity.type ≠ "clase")
      ∧ ∀ r : RankedActivity,
          r ∈ rankingEndpoint store subjectId nowUtc
            ↔ ∃ a ∈ store, a.type ≠ "clase" ∧ matchesSubject subjectId a = true
                ∧ r = rankActivity a nowUtc := by
  have hmem : ∀ r : RankedActivity, r ∈ rankingEndpoint store subjectId nowUtc
      ↔ r ∈ (rankingCandidates store subjectId).map (fun a => rankActivity a nowUtc) :=
    fun r => (List.mergeSort_perm _ rankLe).mem_iff
  have hchar : ∀ r : RankedActivity,
      r ∈ rankingEndpoint store subjectId nowUtc
        ↔ ∃ a ∈ store, a.type ≠ "clase" ∧ matchesSubject subjectId a = true
            ∧ r = rankActivity a nowUtc := by
    intro r
    rw [hmem r, List.mem_map]
    constructor
    · rintro ⟨a, ha, rfl⟩
      rw [rankingCandidates, List.mem_filter] at ha
      obtain ⟨has, hpred⟩ := ha
      have hp : a.type ≠ "clase" ∧ matchesSubject subjectId a = true := by
        simpa using hpred
      exact ⟨a, has, hp.1, hp.2, rfl⟩
    · rintro ⟨a, has, hty, hsub, rfl⟩
      refine ⟨a, ?_, rfl⟩
      rw [rankingCandidates, List.mem_filter]
      exact ⟨has, by simp [hty, hsub]⟩
  refine ⟨?_, hchar⟩
  intro r hr
  obtain ⟨a, -, hty, -, rfl⟩ := (hchar r).mp hr
  rw [rankActivity_activity]
  exact hty

/-- A class-type activity, which the ranking endpoint must drop. -/
def sampleClase : Activity :=
  { id := "c1", subjectId := "s1", type := "clase", name := "teoria" }

/-- Witness for C6: ranking a store holding one class and one homework yields the
ranked homework as a member, and every member is non-class. -/
theorem ranking_excludes_class_witness :
    rankActivity sampleDue24h 0 ∈ rankingEndpoint [sampleClase, sampleDue24h] Option.none 0
      ∧ (rankActivity sampleDue24h 0).activity.type ≠ "clase" := by
  have h := ranking_excludes_class [sampleClase, sampleDue24h] Option.none 0
  have hm : rankActivity sampleDue24h 0
      ∈ rankingEndpoint [sampleClase, sampleDue24h] Option.none 0 :=
    (h.2 _).mpr ⟨sampleDue24h, by simp, by decide, by decide, rfl⟩
  exact ⟨hm, h.1 _ hm⟩

/-- Milliseconds per civil day, the loop stride of the weekly summary. -/
def msPerDay : Int := 86400000

/-- Local civil-day index of an instant, under a fixed timezone offset `off`
(milliseconds added to UTC to obtain local time). -/
def localDayIndex (off t : Int) : Int := (t + off) / msPerDay

/-- date-fns `startOfDay` under the fixed offset: floor to the local midnight. -/
def startOfDayMs (off t : Int) : Int := localDayIndex off t * msPerDay - off

/-- JavaScript `getDay()` under the fixed offset: 0 = Sunday … 6 = Saturday; local
day 0 (1970-01-01) was a Thursday, day-of-week 4. -/
def jsDayOfWeek (off t : Int) : Int := (localDayIndex off t + 4) % 7

/-- date-fns `startOfWeek(t, { weekStartsOn: 1 })`: back up `(getDay() + 6) % 7`
days, then the local midnight. -/
def startOfWeekMondayMs (off t : Int) : Int :=
  (localDayIndex off t - (jsDayOfWeek off t + 6) % 7) * msPerDay - off

/-- date-fns `endOfWeek(t, { weekStartsOn: 1 })`: the last millisecond of the week. -/
def endOfWeekMondayMs (off t : Int) : Int :=
  startOfWeekMondayMs off t + 7 * msPerDay - 1

/-- One value of the weekly summary's `byDay` map: the day's date (its local
midnight, which keys the map) and the two counters. -/
structure DayBucket where
  date : Int
  entregas : Nat
  examenes : Nat
  deriving Repr, DecidableEq

/-- The seeding loop of the weekly summary:
`for (let d = weekStart; d <= weekEnd; d += 24h) byDay.set(startOfDay(d), empty)`. -/
def buildWeekBuckets (off d weekEnd : Int) : List DayBucket :=
  if h : d ≤ weekEnd then
    { date := startOfDayMs off d, entregas := 0, examenes := 0 }
      :: buildWeekBuckets off (d + msPerDay) weekEnd
  else []
termination_by (weekEnd + 1 - d).toNat
decreasing_by
  simp only [msPerDay]
  omega

/-- The counting step of the weekly summary: `examenes += 1` for an exam, otherwise
`entregas += 1` (tarea and entrega both land there). -/
def bumpBucket (type : String) (b : DayBucket) : DayBucket :=
  if type = "examen" then { b with examenes := b.examenes + 1 }
  else { b with entregas := b.entregas + 1 }

/-- `byDay.get(key)` followed by the in-place `+= 1`: the first bucket whose date is
`key` is bumped; when none matches the item is skipped (`if (!bucket) continue`). -/
def addToBuckets : List DayBucket → Int → String → List DayBucket
  | [], _, _ => []
  | b :: rest, key, type =>
    if b.date = key then bumpBucket type b :: rest
    else b :: addToBuckets rest key type

/-- The weekly summary's fetch: activities with `dueAt` in `[weekStart, weekEnd]`
and type in `['examen', 'entrega', 'tarea']`. -/
def weeklyFetch (weekStart weekEnd : Int) (store : List Activity) : List Activity :=
  store.filter (fun a =>
    (match a.dueAt with
      | some due => decide (weekStart ≤ due) && decide (due ≤ weekEnd)
      | Option.none => false)
      && (a.type == "examen" || a.type == "entrega" || a.type == "tarea"))

/-- One iteration of the counting loop: skip when `dueAt` is null, else bump the
bucket keyed by `startOfDay(dueAt)`. -/
def addDueItem (off : Int) (bs : List DayBucket) (a : Activity) : List DayBucket :=
  match a.dueAt with
  | Option.none => bs
  | some due => addToBuckets bs (startOfDayMs off due) a.type

/-- `GET /api/weekly-summary`: seed one empty bucket per day of the Monday-start
week containing `nowUtc`, then count the fetched activities into the buckets. -/
def weeklySummary (off nowUtc : Int) (store : List Activity) : List DayBucket :=
  (weeklyFetch (startOfWeekMondayMs off nowUtc) (endOfWeekMondayMs off nowUtc) store).foldl
    (addDueItem off)
    (buildWeekBuckets off (startOfWeekMondayMs off nowUtc) (endOfWeekMondayMs off nowUtc))

/-- The activity is due (per `startOfDay` of its due date) on the day whose local
midnight is `d`. -/
def dueKeyMatches (off d : Int) (a : Activity) : Bool :=
  match a.dueAt with
  | some due => startOfDayMs off due == d
  | Option.none => false

lemma startOfDayMs_of_aligned (off m : Int) :
    startOfDayMs off (m * msPerDay - off) = m * msPerDay - off := by
  unfold startOfDayMs localDayIndex
  have h1 : m * msPerDay - off + off = m * msPerDay := by ring
  rw [h1, Int.mul_ediv_cancel m (by norm_num [msPerDay])]

lemma startOfDayMs_bounds (off t : Int) :
    startOfDayMs off t ≤ t ∧ t < startOfDayMs off t + msPerDay := by
  unfold startOfDayMs localDayIndex
  have h1 : 0 ≤ (t + off) % 86400000 := Int.emod_nonneg _ (by norm_num)
  have h2 : (t + off) % 86400000 < 86400000 := Int.emod_lt_of_pos _ (by norm_num)
  have h3 : 86400000 * ((t + off) / 86400000) + (t + off) % 86400000 = t + off :=
    Int.ediv_add_emod _ _
  simp only [msPerDay]
  omega

lemma buildWeekBuckets_aligned (off : Int) (n : ℕ) (M : Int) :
    buildWeekBuckets off (M * msPerDay - off) (M * msPerDay - off + (n : Int) * msPerDay - 1)
      = (List.range n).map (fun (k : ℕ) =>
          { date := M * msPerDay - off + (k : Int) * msPerDay,
            entregas := 0, examenes := 0 }) := by
  induction n generalizing M with
  | zero =>
    unfold buildWeekBuckets
    rw [dif_neg]
    · rfl
    · push_cast
      simp only [msPerDay]
      omega
  | succ n ih =>
    unfold buildWeekBuckets
    rw [dif_pos (by push_cast; simp only [msPerDay]; omega)]
    have e1 : M * msPerDay - off + msPerDay = (M + 1) * msPerDay - off := by ring
    have e2 : M * msPerDay - off + ((n + 1 : ℕ) : Int) * msPerDay - 1
        = (M + 1) * msPerDay - off + (n : Int) * msPerDay - 1 := by
      push_cast
      ring
    rw [e1, e2, ih (M + 1), List.range_succ_eq_map, List.map_cons, List.map_map]
    congr 1
    · rw [startOfDayMs_of_aligned]
      push_cast
      ring_nf
    · apply List.map_congr_left
      intro k _
      simp only [Function.comp]
      congr 1
      push_cast
      ring

/-- One item's effect on a single bucket: bump it when the item's due-day key equals
the bucket's date. -/
def bucketStep (off : Int) (a : Activity) (b : DayBucket) : DayBucket :=
  match a.dueAt with
  | Option.none => b
  | some due => if b.date = startOfDayMs off due then bumpBucket a.type b else b

lemma bumpBucket_date (type : String) (b : DayBucket) :
    (bumpBucket type b).date = b.date := by
  unfold bumpBucket
  by_cases h : type = "examen"
  · rw [if_pos h]
  · rw [if_neg h]

lemma bucketStep_date (off : Int) (a : Activity) (b : DayBucket) :
    (bucketStep off a b).date = b.date := by
  unfold bucketStep
  cases hd : a.dueAt with
  | none => rfl
  | some due =>
    show (if b.date = startOfDayMs off due then bumpBucket a.type b else b).date = b.date
    by_cases h : b.date = startOfDayMs off due
    · rw [if_pos h, bumpBucket_date]
    · rw [if_neg h]

lemma addToBuckets_eq_map (bs : List DayBucket) (key : Int) (type : String)
    (h : (bs.map DayBucket.date).Nodup) :
    addToBuckets bs key type
      = bs.map (fun b => if b.date = key then bumpBucket type b else b) := by
  induction bs with
  | nil => rfl
  | cons b rest ih =>
    rw [List.map_cons, List.nodup_cons] at h
    unfold addToBuckets
    by_cases hb : b.date = key
    · rw [if_pos hb, List.map_cons, if_pos hb]
      congr 1
      have hrest : ∀ x ∈ rest, (if x.date = key then bumpBucket type x else x) = x := by
        intro x hx
        rw [if_neg]
        intro hxk
        apply h.1
        rw [hb, ← hxk]
        exact List.mem_map_of_mem DayBucket.date hx
      rw [List.map_congr_left hrest]
      simp
    · rw [if_neg hb, List.map_cons, if_neg hb, ih h.2]

lemma addDueItem_eq_map (off : Int) (bs : List DayBucket) (a : Activity)
    (h : (bs.map DayBucket.date).Nodup) :
    addDueItem off bs a = bs.map (bucketStep off a) := by
  unfold addDueItem bucketStep
  cases a.dueAt with
  | none => simp
  | some due => exact addToBuckets_eq_map bs _ _ h

lemma map_date_map_bucketStep (off : Int) (a : Activity) (bs : List DayBucket) :
    (bs.map (bucketStep off a)).map DayBucket.date = bs.map DayBucket.date := by
  rw [List.map_map]
  exact List.map_congr_left (fun b _ => bucketStep_date off a b)

lemma foldl_addDueItem_eq_map (off : Int) (its : List Activity) (bs : List DayBucket)
    (h : (bs.map DayBucket.date).Nodup) :
    its.foldl (addDueItem off) bs
      = bs.map (fun b => its.foldl (fun x a => bucketStep off a x) b) := by
  induction its generalizing bs with
  | nil => simp
  | cons a its ih =>
    rw [List.foldl_cons, addDueItem_eq_map off bs a h,
      ih (bs.map (bucketStep off a)) (by rw [map_date_map_bucketStep]; exact h),
      List.map_map]
    apply List.map_congr_left
    intro b _
    rfl

lemma foldl_bucketStep_counts (off : Int) (its : List Activity) (b : DayBucket) :
    its.foldl (fun x a => bucketStep off a x) b
      = { date := b.date,
          entregas := b.entregas
            + its.countP (fun a => dueKeyMatches off b.date a && !(a.type == "examen")),
          examenes := b.examenes
            + its.countP (fun a => dueKeyMatches off b.date a && (a.type == "examen")) } := by
  induction its generalizing b with
  | nil => simp
  | cons a its ih =>
    rw [List.foldl_cons, ih, bucketStep_date, List.countP_cons, List.countP_cons]
    unfold bucketStep bumpBucket dueKeyMatches
    cases hd : a.dueAt with
    | none => simp
    | some due =>
      by_cases hk : b.date = startOfDayMs off due
      · by_cases ht : a.type = "examen"
        · simp only [hk, ht, if_pos rfl, beq_self_eq_true, Bool.and_true, Bool.and_false,
            Bool.not_true, if_true, beq_iff_eq]
          simp [hk, ht]
          omega
        · have ht' : (a.type == "examen") = false := by
            simp [ht]
          simp only [hk, if_pos rfl, ht', Bool.not_false, Bool.and_true, Bool.and_false]
          simp [hk, ht]
          omega
      · have hk' : (startOfDayMs off due == b.date) = false := by
          simp
          intro hh
          exact absurd hh.symm hk
        simp only [if_neg hk, hk', Bool.false_and]
        simp

lemma weeklySummary_closed_form (off nowUtc : Int) (store : List Activity) :
    weeklySummary off nowUtc store
      = (List.range 7).map (fun (k : ℕ) =>
          { date := startOfWeekMondayMs off nowUtc + (k : Int) * msPerDay,
            entregas := (weeklyFetch (startOfWeekMondayMs off nowUtc)
                (endOfWeekMondayMs off nowUtc) store).countP
              (fun a => dueKeyMatches off (startOfWeekMondayMs off nowUtc
                + (k : Int) * msPerDay) a && !(a.type == "examen")),
            examenes := (weeklyFetch (startOfWeekMondayMs off nowUtc)
                (endOfWeekMondayMs off nowUtc) store).countP
              (fun a => dueKeyMatches off (startOfWeekMondayMs off nowUtc
                + (k : Int) * msPerDay) a && (a.type == "examen")) }) := by
  have hinit : buildWeekBuckets off (startOfWeekMondayMs off nowUtc)
      (endOfWeekMondayMs off nowUtc)
      = (List.range 7).map (fun (k : ℕ) =>
          ({ date := startOfWeekMondayMs off nowUtc + (k : Int) * msPerDay,
             entregas := 0, examenes := 0 } : DayBucket)) := by
    have hb := buildWeekBuckets_aligned off 7
      (localDayIndex off nowUtc - (jsDayOfWeek off nowUtc + 6) % 7)
    have h7 : ((7 : ℕ) : Int) = (7 : Int) := by norm_num
    rw [h7] at hb
    exact hb
  have hnod : (((List.range 7).map (fun (k : ℕ) =>
      ({ date := startOfWeekMondayMs off nowUtc + (k : Int) * msPerDay,
         entregas := 0, examenes := 0 } : DayBucket))).map DayBucket.date).Nodup := by
    rw [List.map_map]
    refine List.Nodup.map_on ?_ (List.nodup_range 7)
    intro i _ j _ hij
    simp only [Function.comp_apply, msPerDay] at hij
    omega
  unfold weeklySummary
  rw [hinit, foldl_addDueItem_eq_map off _ _ hnod, List.map_map]
  apply List.map_congr_left
  intro k _
  simp only [Function.comp_apply]
  rw [foldl_bucketStep_counts]
  simp

lemma countP_weeklyFetch_exam (off ws : Int) (k : ℕ) (hk : k < 7) (store : List Activity) :
    (weeklyFetch ws (ws + 7 * msPerDay - 1) store).countP
        (fun a => dueKeyMatches off (ws + (k : Int) * msPerDay) a && (a.type == "examen"))
      = store.countP (fun a =>
          (a.type == "examen") && dueKeyMatches off (ws + (k : Int) * msPerDay) a) := by
  unfold weeklyFetch
  rw [List.countP_filter]
  apply List.countP_congr
  intro a _
  cases hd : a.dueAt with
  | none => simp [dueKeyMatches, hd]
  | some due =>
    have hb := startOfDayMs_bounds off due
    simp only [dueKeyMatches, hd, Bool.and_eq_true, Bool.or_eq_true, decide_eq_true_eq,
      beq_iff_eq]
    constructor
    · rintro ⟨⟨hdk, hex⟩, -, -⟩
      exact ⟨hex, hdk⟩
    · rintro ⟨hex, hdk⟩
      refine ⟨⟨hdk, hex⟩, ⟨?_, ?_⟩, Or.inl (Or.inl hex)⟩
      · simp only [msPerDay] at hdk hb ⊢
        omega
      · simp only [msPerDay] at hdk hb ⊢
        omega

lemma countP_weeklyFetch_nonExam (off ws : Int) (k : ℕ) (hk : k < 7)
    (store : List Activity) :
    (weeklyFetch ws (ws + 7 * msPerDay - 1) store).countP
        (fun a => dueKeyMatches off (ws + (k : Int) * msPerDay) a && !(a.type == "examen"))
      = store.countP (fun a =>
          (a.type == "entrega" || a.type == "tarea")
            && dueKeyMatches off (ws + (k : Int) * msPerDay) a) := by
  unfold weeklyFetch
  rw [List.countP_filter]
  apply List.countP_congr
  intro a _
  cases hd : a.dueAt with
  | none => simp [dueKeyMatches, hd]
  | some due =>
    have hb := startOfDayMs_bounds off due
    simp only [dueKeyMatches, hd, Bool.and_eq_true, Bool.or_eq_true, decide_eq_true_eq,
      beq_iff_eq, Bool.not_eq_true', beq_eq_false_iff_ne, ne_eq]
    constructor
    · rintro ⟨⟨hdk, hnex⟩, -, ((hex | hent) | htar)⟩
      · exact absurd hex hnex
      · exact ⟨Or.inl hent, hdk⟩
      · exact ⟨Or.inr htar, hdk⟩
    · rintro ⟨hty, hdk⟩
      have hnex : ¬ a.type = "examen" := by
        rcases hty with h | h <;> rw [h] <;> decide
      refine ⟨⟨hdk, hnex⟩, ⟨?_, ?_⟩, ?_⟩
      · simp only [msPerDay] at hdk hb ⊢
        omega
      · simp only [msPerDay] at hdk hb ⊢
        omega
      · rcases hty with h | h
        · exact Or.inl (Or.inr h)
        · exact Or.inr h

/-- Claim C9: the weekly summary returns exactly 7 day-buckets, one per calendar day
of the Monday-start week containing now (even for an empty store); bucket k carries
the date of day k of that week together with the count of exams due that day and the
count of non-exam (entrega + tarea) items due that day. -/
theorem weekly_summary_seven_buckets (off nowUtc : Int) (store : List Activity) :
    (weeklySummary off nowUtc store).length = 7
      ∧ ∀ k : ℕ, k < 7 →
          (weeklySummary off nowUtc store)[k]? =
            some { date := startOfWeekMondayMs off nowUtc + (k : Int) * msPerDay,
                   entregas := store.countP (fun a =>
                     (a.type == "entrega" || a.type == "tarea")
                       && dueKeyMatches off (startOfWeekMondayMs off nowUtc
                            + (k : Int) * msPerDay) a),
                   examenes := store.countP (fun a =>
                     (a.type == "examen")
                       && dueKeyMatches off (startOfWeekMondayMs off nowUtc
                            + (k : Int) * msPerDay) a) } := by
  rw [weeklySummary_closed_form]
  constructor
  · rw [List.length_map, List.length_range]
  · intro k hk
    rw [List.getElem?_map, List.getElem?_range hk]
    have heow : endOfWeekMondayMs off nowUtc
        = startOfWeekMondayMs off nowUtc + 7 * msPerDay - 1 := rfl
    simp only [Option.map_some']
    rw [heow, countP_weeklyFetch_exam off (startOfWeekMondayMs off nowUtc) k hk store,
      countP_weeklyFetch_nonExam off (startOfWeekMondayMs off nowUtc) k hk store]

/-- Witness for C9: an empty store at instant 0 with offset 0 still yields 7 buckets,
the first dated at the Monday midnight 1969-12-29 (epoch −259200000 ms) with zero
counts. -/
theorem weekly_summary_seven_buckets_witness :
    (weeklySummary 0 0 []).length = 7
      ∧ (weeklySummary 0 0 [])[0]? =
          some { date := -259200000, entregas := 0, examenes := 0 } := by
  have h := weekly_summary_seven_buckets 0 0 []
  refine ⟨h.1, ?_⟩
  have h0 := h.2 0 (by norm_num)
  rw [h0]
  decide
